import Mathlib

/-!
Shallow embedding of the effect engines of `spritesheet.go`
(package gospritesheet): the gradient builder `interpolateColor`,
the directional growth engine `applyEffect` (with its wrappers
`ApplyFlameEffect` and `ApplyDripEffect`), the glow diffusion engine
`ApplyGlowEffect`, and the corrosion automaton `ApplyCorrosion`.

Modelling conventions:
* An input layer (`image.Image`) is modelled by its bounds (taken with
  `Min = (0,0)`, so a `w × h` grid, the data model's "width × height grid
  of RGBA quadruples") together with the 16-bit alpha value that
  `layer.At(x, y).RGBA()` returns; the engines read nothing else from the
  input.  The alpha function is total on `ℤ × ℤ` because the code does
  read one row past the bounds at the scanning edge.
* The freshly allocated `image.RGBA` output buffer is a `Grid`: bounds
  plus an 8-bit pixel function; `Grid.At` returns the zero color outside
  bounds and `Grid.set` is a no-op outside bounds, exactly as
  `image.RGBA.At` / `image.RGBA.Set` behave.
* `rand.Float64()` draws are modelled by a stream `rng : ℕ → ℚ` consumed
  at an explicit position, with Go's short-circuit evaluation of
  `(numNeighbors < 3 && rand.Float64() < 0.5) || rand.Float64() < 0.2`
  reproduced draw-for-draw; `float64` arithmetic (thresholds and the
  gradient interpolation) is modelled over `ℚ` with the final
  float-to-`uint16` conversion as truncation.  `rand.Intn(8)` draws are a
  stream `ℕ → ℕ` reduced mod 8, and `rand.Perm(n)` is an input
  permutation of `List.range n`.
-/

namespace GoSpritesheet

/-- 8-bit RGBA color, as Go's `color.RGBA` (the concrete type stored in an
`image.RGBA` and produced by `interpolateColor`). -/
structure Col8 where
  r : ℕ
  g : ℕ
  b : ℕ
  a : ℕ
deriving DecidableEq

/-- The zero `color.RGBA`, returned by `image.RGBA.At` for an unset or
out-of-bounds pixel. -/
def Col8.zero : Col8 := ⟨0, 0, 0, 0⟩

/-- 16-bit alpha-premultiplied channels, as returned by
`color.Color.RGBA()`. -/
structure Col16 where
  r : ℕ
  g : ℕ
  b : ℕ
  a : ℕ
deriving DecidableEq

/-- `color.RGBA.RGBA()`: each 8-bit channel `v` becomes `v | v<<8 = 257*v`. -/
def Col8.toCol16 (c : Col8) : Col16 := ⟨257 * c.r, 257 * c.g, 257 * c.b, 257 * c.a⟩

/-- A well-formed 8-bit color: every channel fits in a byte, as Go's
`color.RGBA` guarantees by type. -/
def Col8.Valid (c : Col8) : Prop := c.r < 256 ∧ c.g < 256 ∧ c.b < 256 ∧ c.a < 256

/-- An input layer: bounds (with `Min = (0,0)`) and the alpha channel of
`layer.At(x, y).RGBA()`, the only data the engines read from the input. -/
structure Layer where
  w : ℕ
  h : ℕ
  alpha : ℤ → ℤ → ℕ

/-- An `image.RGBA` raster buffer: bounds (with `Min = (0,0)`) and the
stored pixel values. -/
structure Grid where
  w : ℕ
  h : ℕ
  px : ℤ → ℤ → Col8

/-- `image.RGBA.At`: the stored pixel inside bounds, the zero color outside. -/
def Grid.At (g : Grid) (x y : ℤ) : Col8 :=
  if 0 ≤ x ∧ x < (g.w : ℤ) ∧ 0 ≤ y ∧ y < (g.h : ℤ) then g.px x y else Col8.zero

/-- `image.RGBA.Set`: stores the color inside bounds, no-op outside. -/
def Grid.set (g : Grid) (x y : ℤ) (c : Col8) : Grid :=
  if 0 ≤ x ∧ x < (g.w : ℤ) ∧ 0 ≤ y ∧ y < (g.h : ℤ) then
    { g with px := fun x' y' => if x' = x ∧ y' = y then c else g.px x' y' }
  else g

/-- `image.NewRGBA(bounds)`: a fresh buffer, all pixels zero. -/
def newRGBA (w h : ℕ) : Grid := ⟨w, h, fun _ _ => Col8.zero⟩

/-- One channel of `interpolateColor` at `percentage = i / m`:
`uint16(float64(a) + percentage*(float64(b) - float64(a)))`.
Over the rationals `a + (i/m)*(b - a) = (a*m + i*(b - a)) / m` exactly,
and for the engine's inputs (`0 ≤ i ≤ m`, channels ≤ 65535) the value is
in `[0, 65535]`, where Go's truncating conversion to `uint16` is the
floor, hence the floor division `Int.fdiv`.  The lemma `interpCh_eq_q`
below ties this to the direct rational-arithmetic transcription. -/
def interpCh (a b : ℕ) (i m : ℤ) : ℕ :=
  ((((a : ℤ) * m + i * ((b : ℤ) - (a : ℤ))).fdiv m).toNat) % 65536

/-- The direct rational transcription of one channel of
`interpolateColor`: `uint16(float64(a) + p*(float64(b) - float64(a)))`
with the truncation written as the floor (the value is nonnegative for
`p ∈ [0, 1]`). -/
def interpChQ (a b : ℕ) (p : ℚ) : ℕ :=
  ((⌊(a : ℚ) + p * ((b : ℚ) - (a : ℚ))⌋).toNat) % 65536

/-- `interpolateColor` at `percentage = i / m`: per-channel linear
interpolation of the 16-bit channels, truncated to `uint16` and then
shifted right by 8 bits into a `color.RGBA`. -/
def interpolateColor (A B : Col16) (i m : ℤ) : Col8 :=
  ⟨interpCh A.r B.r i m / 256, interpCh A.g B.g i m / 256,
   interpCh A.b B.b i m / 256, interpCh A.a B.a i m / 256⟩

/-- The gradient built by the engines: entry `i` is `interpolateColor` at
`percentage = i / (numColors - 1)`. -/
def buildGradient (A B : Col16) (numColors : ℕ) : List Col8 :=
  (List.range numColors).map fun i : ℕ => interpolateColor A B ((i : ℕ) : ℤ) ((numColors : ℤ) - 1)

/-- The 3×3 neighborhood offsets in the order Go's nested loops visit
them: `i` (x offset) outer, `j` (y offset) inner, each from -1 to 1. -/
def offsets : List (ℤ × ℤ) :=
  [(-1, -1), (-1, 0), (-1, 1), (0, -1), (0, 0), (0, 1), (1, -1), (1, 0), (1, 1)]

/-- In-bounds test against a `w × h` rectangle with `Min = (0,0)`. -/
def inb (w h : ℕ) (x y : ℤ) : Prop :=
  0 ≤ x ∧ x < (w : ℤ) ∧ 0 ≤ y ∧ y < (h : ℤ)

instance (w h : ℕ) (x y : ℤ) : Decidable (inb w h x y) := by
  unfold inb; infer_instance

/-- `applyEffect`'s neighbor count: in-bounds 3×3 cells (center included)
set on the original layer or on the effect layer. -/
def effNeighborCount (L : Layer) (ov : Grid) (x y : ℤ) : ℕ :=
  offsets.countP fun o =>
    decide (inb L.w L.h (x + o.1) (y + o.2) ∧
      (L.alpha (x + o.1) (y + o.2) ≠ 0 ∨ (ov.At (x + o.1) (y + o.2)).a ≠ 0))

/-- `applyEffect`'s gradient lookup: the index of the first gradient entry
equal to the given color, 0 (the zero value of `index`) when none matches. -/
def gradIndexOf (grad : List Col8) (c : Col8) : ℕ :=
  if grad.findIdx (fun e => e = c) = grad.length then 0 else grad.findIdx (fun e => e = c)

/-- The tail of `applyEffect`'s growth branch: look up the gradient index
of the effect-layer neighbor and set the current pixel to the next
gradient color unless the index is already the last entry. -/
def effectAdvance (grad : List Col8) (numColors : ℕ) (dir : ℤ)
    (ov : Grid) (x y : ℤ) (k : ℕ) : Grid × ℕ :=
  if gradIndexOf grad (ov.At x (y + dir)) < numColors - 1 then
    (ov.set x y (grad.getD (gradIndexOf grad (ov.At x (y + dir)) + 1) Col8.zero), k)
  else (ov, k)

/-- One pixel of `applyEffect`'s scan.  The state is the effect layer
together with the number of `rand.Float64()` samples consumed; Go's
short-circuit evaluation of
`(numNeighbors < minNeighbors && rand.Float64() < 0.5) || rand.Float64() < 0.2`
is reproduced exactly. -/
def effectStep (L : Layer) (grad : List Col8) (numColors : ℕ) (dir : ℤ)
    (rng : ℕ → ℚ) (x y : ℤ) (st : Grid × ℕ) : Grid × ℕ :=
  if L.alpha x y ≠ 0 then st
  else if L.alpha x (y + dir) ≠ 0 then (st.1.set x y (grad.getD 0 Col8.zero), st.2)
  else if (st.1.At x (y + dir)).a ≠ 0 then
    if effNeighborCount L st.1 x y < 3 then
      if rng st.2 < mkRat 1 2 then (st.1, st.2 + 1)
      else if rng (st.2 + 1) < mkRat 1 5 then (st.1, st.2 + 2)
      else effectAdvance grad numColors dir st.1 x y (st.2 + 2)
    else
      if rng st.2 < mkRat 1 5 then (st.1, st.2 + 1)
      else effectAdvance grad numColors dir st.1 x y (st.2 + 1)
  else st

/-- One row of `applyEffect`'s scan: `x` from `bounds.Min.X` to
`bounds.Max.X - 1`. -/
def effectRow (L : Layer) (grad : List Col8) (numColors : ℕ) (dir : ℤ)
    (rng : ℕ → ℚ) (y : ℤ) (st : Grid × ℕ) : Grid × ℕ :=
  ((List.range L.w).map Int.ofNat).foldl
    (fun s x => effectStep L grad numColors dir rng x y s) st

/-- The rows visited by `applyEffect`'s scan for the two directions the
package uses: bottom-to-top for `DirectionUp = 1`, top-to-bottom for
`DirectionDown = -1`. -/
def scanRows (h : ℕ) (dir : ℤ) : List ℤ :=
  if dir = -1 then (List.range h).map Int.ofNat
  else ((List.range h).reverse).map Int.ofNat

/-- `applyEffect`: build the gradient, then scan the rows in the given
direction growing the effect layer; returns the effect layer. -/
def applyEffect (L : Layer) (A B : Col16) (numColors : ℕ) (dir : ℤ)
    (rng : ℕ → ℚ) : Grid :=
  ((scanRows L.h dir).foldl
    (fun st y => effectRow L (buildGradient A B numColors) numColors dir rng y st)
    (newRGBA L.w L.h, 0)).1

/-- `ApplyFlameEffect`: `applyEffect` with a 10-color gradient and
`DirectionUp`. -/
def ApplyFlameEffect (L : Layer) (A B : Col16) (rng : ℕ → ℚ) : Grid :=
  applyEffect L A B 10 1 rng

/-- `ApplyDripEffect`: `applyEffect` with a 15-color gradient and
`DirectionDown`. -/
def ApplyDripEffect (L : Layer) (A B : Col16) (rng : ℕ → ℚ) : Grid :=
  applyEffect L A B 15 (-1) rng

/-- `ApplyGlowEffect`'s seed-pass fill (colorIndex 0): set every in-bounds
3×3 neighbor that is unoccupied on the original layer and still unset on
the effect layer to `gradient[0]`. -/
def glowSeedFill (L : Layer) (ov : Grid) (c : Col8) (x y : ℤ) : Grid :=
  offsets.foldl
    (fun g o =>
      if inb L.w L.h (x + o.1) (y + o.2) then
        if L.alpha (x + o.1) (y + o.2) ≠ 0 then g
        else if (g.At (x + o.1) (y + o.2)).a = 0 then g.set (x + o.1) (y + o.2) c
        else g
      else g)
    ov

/-- `ApplyGlowEffect`'s propagation-pass neighbor count: in-bounds 3×3
cells (center included) set on the effect layer with a color different
from the current gradient color. -/
def glowNeighborCount (ov : Grid) (c : Col8) (x y : ℤ) : ℕ :=
  offsets.countP fun o =>
    decide (inb ov.w ov.h (x + o.1) (y + o.2) ∧
      (ov.At (x + o.1) (y + o.2)).a ≠ 0 ∧ ov.At (x + o.1) (y + o.2) ≠ c)

/-- `ApplyGlowEffect`'s propagation-pass fill: set every in-bounds 3×3
neighbor still unset on the effect layer to the current gradient color. -/
def glowFill (ov : Grid) (c : Col8) (x y : ℤ) : Grid :=
  offsets.foldl
    (fun g o =>
      if inb ov.w ov.h (x + o.1) (y + o.2) then
        if (g.At (x + o.1) (y + o.2)).a = 0 then g.set (x + o.1) (y + o.2) c
        else g
      else g)
    ov

/-- One pixel of one `ApplyGlowEffect` pass, for gradient entry
`colorIndex` with color `c`.  The state is the effect layer together with
the number of `rand.Float64()` samples consumed; Go's short-circuit
`numNeighbors < minNeighbors || rand.Float64() < 0.1` draws no sample
when the neighbor count is below 3. -/
def glowPassStep (L : Layer) (c : Col8) (colorIndex : ℕ) (rng : ℕ → ℚ)
    (x y : ℤ) (st : Grid × ℕ) : Grid × ℕ :=
  if colorIndex = 0 then
    if L.alpha x y = 0 then st
    else (glowSeedFill L st.1 c x y, st.2)
  else if L.alpha x y = 0 then
    if (st.1.At x y).a = 0 ∨ st.1.At x y = c then st
    else if glowNeighborCount st.1 c x y < 3 then st
    else if rng st.2 < mkRat 1 10 then (st.1, st.2 + 1)
    else (glowFill st.1 c x y, st.2 + 1)
  else st

/-- One full pass of `ApplyGlowEffect` over the layer, rows outer,
columns inner. -/
def glowPass (L : Layer) (c : Col8) (colorIndex : ℕ) (rng : ℕ → ℚ)
    (st : Grid × ℕ) : Grid × ℕ :=
  ((List.range L.h).map Int.ofNat).foldl
    (fun s y =>
      ((List.range L.w).map Int.ofNat).foldl
        (fun s2 x => glowPassStep L c colorIndex rng x y s2) s)
    st

/-- `ApplyGlowEffect`: build the 3-color gradient, then run one pass per
gradient entry over a fresh effect layer. -/
def ApplyGlowEffect (L : Layer) (A B : Col16) (rng : ℕ → ℚ) : Grid :=
  ((buildGradient A B 3).enum.foldl
    (fun st kc => glowPass L kc.2 kc.1 rng st) (newRGBA L.w L.h, 0)).1

/-- Occupancy of corrosion cell index `i`, decoded as the code does:
`x = i % Dx`, `y = i / Dx`. -/
def occIdx (L : Layer) (i : ℕ) : Prop :=
  L.alpha ((i % L.w : ℕ) : ℤ) ((i / L.w : ℕ) : ℤ) ≠ 0

instance (L : Layer) (i : ℕ) : Decidable (occIdx L i) := by
  unfold occIdx; infer_instance

/-- The number of occupied cells of the layer. -/
def occCount (L : Layer) : ℕ :=
  (List.range (L.w * L.h)).countP fun i => decide (occIdx L i)

/-- `ApplyCorrosion`'s seed-selection loop over the random permutation:
mark each occupied cell in `current` and decrement the budget, breaking
as soon as the budget reaches zero (checked after every visit). -/
def seedLoop (L : Layer) : List ℕ → Finset ℕ → ℤ → Finset ℕ
  | [], cur, _ => cur
  | i :: rest, cur, budget =>
    if occIdx L i then
      if budget - 1 = 0 then insert i cur
      else seedLoop L rest (insert i cur) (budget - 1)
    else
      if budget = 0 then cur
      else seedLoop L rest cur budget

/-- Corrosion neighbor count: in-bounds 3×3 cells (center included) set
in the previous corrosion state, indexed as `(y+j)*Dx + (x+i)`. -/
def corrNeighborCount (L : Layer) (pv : Finset ℕ) (x y : ℤ) : ℕ :=
  offsets.countP fun o =>
    decide (inb L.w L.h (x + o.1) (y + o.2) ∧
      ((y + o.2) * (L.w : ℤ) + (x + o.1)).toNat ∈ pv)

/-- One cell of one corrosion iteration: occupied cells copy a set
previous state, otherwise they draw `rand.Intn(8)` and become set when
the sample is below the neighbor count.  The state is the `current` grid
together with the number of samples consumed. -/
def corrCellStep (L : Layer) (pv : Finset ℕ) (rngN : ℕ → ℕ) (x y : ℕ)
    (st : Finset ℕ × ℕ) : Finset ℕ × ℕ :=
  if L.alpha (x : ℤ) (y : ℤ) = 0 then st
  else if y * L.w + x ∈ pv then (insert (y * L.w + x) st.1, st.2)
  else if rngN st.2 % 8 < corrNeighborCount L pv (x : ℤ) (y : ℤ) then
    (insert (y * L.w + x) st.1, st.2 + 1)
  else (st.1, st.2 + 1)

/-- One corrosion iteration's sweep over all cells, rows outer, columns
inner, reading `pv` and writing into the `current` component. -/
def corrSweep (L : Layer) (pv : Finset ℕ) (rngN : ℕ → ℕ)
    (st : Finset ℕ × ℕ) : Finset ℕ × ℕ :=
  (List.range L.h).foldl
    (fun s y => (List.range L.w).foldl (fun s2 x => corrCellStep L pv rngN x y s2) s)
    st

/-- The corrosion iteration loop: run the sweep, then swap `current` and
`previous`.  Returns `(current, previous, samples consumed)`. -/
def corrIterate (L : Layer) (rngN : ℕ → ℕ) :
    ℕ → Finset ℕ → Finset ℕ → ℕ → Finset ℕ × Finset ℕ × ℕ
  | 0, cur, pv, pos => (cur, pv, pos)
  | n + 1, cur, pv, pos =>
    corrIterate L rngN n pv (corrSweep L pv rngN (cur, pos)).1
      (corrSweep L pv rngN (cur, pos)).2

/-- `ApplyCorrosion`'s final paint: every cell set in the final
`previous` grid gets the corrosion color. -/
def corrPaint (L : Layer) (c : Col8) (pvF : Finset ℕ) : Grid :=
  (List.range L.h).foldl
    (fun g y =>
      (List.range L.w).foldl
        (fun g2 x => if y * L.w + x ∈ pvF then g2.set (x : ℤ) (y : ℤ) c else g2)
        g)
    (newRGBA L.w L.h)

/-- `ApplyCorrosion`: select seeds along the input permutation of all
cell indices, run the automaton for `numIterations` steps, and paint the
final `previous` grid with the corrosion color. -/
def ApplyCorrosion (L : Layer) (c : Col8) (numIterations : ℕ) (numSeeds : ℤ)
    (perm : List ℕ) (rngN : ℕ → ℕ) : Grid :=
  corrPaint L c
    (corrIterate L rngN numIterations (seedLoop L perm ∅ numSeeds) ∅ 0).2.1

/-! Concrete instances used to evaluate the engines on explicit inputs. -/

/-- Opaque black as an 8-bit color. -/
def blackCol : Col8 := ⟨0, 0, 0, 255⟩

/-- Opaque white as an 8-bit color. -/
def whiteCol : Col8 := ⟨255, 255, 255, 255⟩

/-- Opaque red as an 8-bit color. -/
def redCol : Col8 := ⟨255, 0, 0, 255⟩

/-- A mocked random source whose `rand.Float64()` samples are always 1.0,
so no stochastic thinning comparison ever fires. -/
def oneQ : ℕ → ℚ := fun _ => 1

/-- A mocked random source whose `rand.Float64()` samples are always 0. -/
def zeroQ : ℕ → ℚ := fun _ => 0

/-- A mocked integer random source whose `rand.Intn` samples are always 0. -/
def zeroN : ℕ → ℕ := fun _ => 0

/-- A 3×3 layer whose only occupied pixel is `(2, 2)`. -/
def cornerLayer : Layer := ⟨3, 3, fun x y => if x = 2 ∧ y = 2 then 65535 else 0⟩

/-- A 1×1 layer whose single pixel is occupied. -/
def dotLayer : Layer := ⟨1, 1, fun _ _ => 65535⟩

/-- A 1-pixel-wide, 2-pixel-tall fully occupied vertical line layer
(transparent outside its bounds, as a decoded image is). -/
def lineFullLayer : Layer :=
  ⟨1, 2, fun x y => if 0 ≤ x ∧ x < 1 ∧ 0 ≤ y ∧ y < 2 then 65535 else 0⟩

/-- A 1-pixel-wide, `(N+1)`-pixel-tall layer whose bottom `N` pixels
(rows `1..N`) are an occupied vertical line and whose top row is
transparent. -/
def lineLayer (N : ℕ) : Layer :=
  ⟨1, N + 1, fun x y => if x = 0 ∧ 1 ≤ y ∧ y ≤ (N : ℤ) then 65535 else 0⟩

/-- A fully transparent layer of the given bounds. -/
def emptyLayer (w h : ℕ) : Layer := ⟨w, h, fun _ _ => 0⟩

/-! Helper lemmas about grids and folds. -/

theorem foldl_invariant {α : Type} {β : Type} (f : α → β → α) (P : α → Prop)
    (l : List β) (init : α) (h0 : P init)
    (hstep : ∀ s b, b ∈ l → P s → P (f s b)) : P (l.foldl f init) := by
  induction l generalizing init with
  | nil => exact h0
  | cons b t ih =>
    exact ih (f init b) (hstep init b (by simp) h0)
      (fun s b' hb' hs => hstep s b' (by simp [hb']) hs)

theorem foldl_fix {α : Type} {β : Type} (f : α → β → α) (l : List β) (init : α)
    (h : ∀ s b, b ∈ l → f s b = s) : l.foldl f init = init := by
  induction l generalizing init with
  | nil => rfl
  | cons b t ih =>
    rw [List.foldl_cons, h init b (by simp)]
    exact ih init (fun s b' hb' => h s b' (by simp [hb']))

@[simp] theorem Grid.w_set (g : Grid) (x y : ℤ) (c : Col8) : (g.set x y c).w = g.w := by
  unfold Grid.set; split_ifs <;> rfl

@[simp] theorem Grid.h_set (g : Grid) (x y : ℤ) (c : Col8) : (g.set x y c).h = g.h := by
  unfold Grid.set; split_ifs <;> rfl

@[simp] theorem At_newRGBA (w h : ℕ) (x y : ℤ) : (newRGBA w h).At x y = Col8.zero := by
  unfold newRGBA Grid.At; split_ifs <;> rfl

theorem Grid.At_set (g : Grid) (x y : ℤ) (c : Col8) (x' y' : ℤ) :
    (g.set x y c).At x' y' =
      if x' = x ∧ y' = y ∧ inb g.w g.h x y then c else g.At x' y' := by
  simp only [Grid.set, Grid.At, inb]
  split_ifs <;> simp_all

theorem effectStep_bounds (L : Layer) (grad : List Col8) (n : ℕ) (dir : ℤ)
    (rng : ℕ → ℚ) (x y : ℤ) (st : Grid × ℕ) :
    (effectStep L grad n dir rng x y st).1.w = st.1.w ∧
      (effectStep L grad n dir rng x y st).1.h = st.1.h := by
  unfold effectStep effectAdvance
  split_ifs <;> simp

theorem applyEffect_bounds (L : Layer) (A B : Col16) (n : ℕ) (dir : ℤ)
    (rng : ℕ → ℚ) :
    (applyEffect L A B n dir rng).w = L.w ∧ (applyEffect L A B n dir rng).h = L.h := by
  unfold applyEffect
  refine foldl_invariant _ (fun st : Grid × ℕ => st.1.w = L.w ∧ st.1.h = L.h) _ _ ⟨rfl, rfl⟩ ?_
  intro s y _ hs
  unfold effectRow
  refine foldl_invariant _ (fun st : Grid × ℕ => st.1.w = L.w ∧ st.1.h = L.h) _ _ hs ?_
  intro s' x _ hs'
  obtain ⟨h1, h2⟩ := effectStep_bounds L (buildGradient A B n) n dir rng x y s'
  exact ⟨h1.trans hs'.1, h2.trans hs'.2⟩

theorem glowSeedFill_bounds (L : Layer) (ov : Grid) (c : Col8) (x y : ℤ) :
    (glowSeedFill L ov c x y).w = ov.w ∧ (glowSeedFill L ov c x y).h = ov.h := by
  unfold glowSeedFill
  refine foldl_invariant _ (fun g : Grid => g.w = ov.w ∧ g.h = ov.h) _ _ ⟨rfl, rfl⟩ ?_
  intro g o _ hg
  split_ifs <;> simp [hg.1, hg.2]

theorem glowFill_bounds (ov : Grid) (c : Col8) (x y : ℤ) :
    (glowFill ov c x y).w = ov.w ∧ (glowFill ov c x y).h = ov.h := by
  unfold glowFill
  refine foldl_invariant _ (fun g : Grid => g.w = ov.w ∧ g.h = ov.h) _ _ ⟨rfl, rfl⟩ ?_
  intro g o _ hg
  split_ifs <;> simp [hg.1, hg.2]

theorem glowPassStep_bounds (L : Layer) (c : Col8) (k : ℕ) (rng : ℕ → ℚ)
    (x y : ℤ) (st : Grid × ℕ) :
    (glowPassStep L c k rng x y st).1.w = st.1.w ∧
      (glowPassStep L c k rng x y st).1.h = st.1.h := by
  unfold glowPassStep
  split_ifs <;>
    simp [glowSeedFill_bounds, glowFill_bounds,
      (glowSeedFill_bounds L st.1 c x y).1, (glowSeedFill_bounds L st.1 c x y).2,
      (glowFill_bounds st.1 c x y).1, (glowFill_bounds st.1 c x y).2]

theorem ApplyGlowEffect_bounds (L : Layer) (A B : Col16) (rng : ℕ → ℚ) :
    (ApplyGlowEffect L A B rng).w = L.w ∧ (ApplyGlowEffect L A B rng).h = L.h := by
  unfold ApplyGlowEffect
  refine foldl_invariant _ (fun st : Grid × ℕ => st.1.w = L.w ∧ st.1.h = L.h) _ _ ⟨rfl, rfl⟩ ?_
  intro s kc _ hs
  unfold glowPass
  refine foldl_invariant _ (fun st : Grid × ℕ => st.1.w = L.w ∧ st.1.h = L.h) _ _ hs ?_
  intro s' y _ hs'
  refine foldl_invariant _ (fun st : Grid × ℕ => st.1.w = L.w ∧ st.1.h = L.h) _ _ hs' ?_
  intro s2 x _ hs2
  obtain ⟨h1, h2⟩ := glowPassStep_bounds L kc.2 kc.1 rng x y s2
  exact ⟨h1.trans hs2.1, h2.trans hs2.2⟩

theorem corrPaint_bounds (L : Layer) (c : Col8) (pvF : Finset ℕ) :
    (corrPaint L c pvF).w = L.w ∧ (corrPaint L c pvF).h = L.h := by
  unfold corrPaint
  refine foldl_invariant _ (fun g : Grid => g.w = L.w ∧ g.h = L.h) _ _ ⟨rfl, rfl⟩ ?_
  intro g y _ hg
  refine foldl_invariant _ (fun g : Grid => g.w = L.w ∧ g.h = L.h) _ _ hg ?_
  intro g2 x _ hg2
  split_ifs <;> simp [hg2.1, hg2.2]

/-- C7: every effect engine call (directional, glow, corrosion) returns a
buffer whose bounds equal the input layer's bounds.  The engines are pure
functions of the input layer here, mirroring that the Go code only ever
calls the read methods `At`/`Bounds` on the input and writes only to the
buffer it freshly allocates, so the input layer is never modified. -/
theorem C7_fresh_buffer_bounds (L : Layer) (A B : Col16) (n : ℕ) (dir : ℤ)
    (rng : ℕ → ℚ) (c : Col8) (it : ℕ) (s : ℤ) (perm : List ℕ) (rngN : ℕ → ℕ) :
    ((applyEffect L A B n dir rng).w = L.w ∧ (applyEffect L A B n dir rng).h = L.h) ∧
    ((ApplyGlowEffect L A B rng).w = L.w ∧ (ApplyGlowEffect L A B rng).h = L.h) ∧
    ((ApplyCorrosion L c it s perm rngN).w = L.w ∧
      (ApplyCorrosion L c it s perm rngN).h = L.h) :=
  ⟨applyEffect_bounds L A B n dir rng, ApplyGlowEffect_bounds L A B rng,
    corrPaint_bounds L c _⟩

/-- C10: with `numIterations = 0` the corrosion engine returns a fully
transparent buffer: seeds are written into the `current` grid, the output
is painted from the `previous` grid, and no swap ever happens. -/
theorem C10_zero_iterations_transparent (L : Layer) (c : Col8) (s : ℤ)
    (perm : List ℕ) (rngN : ℕ → ℕ) (x y : ℤ) :
    (ApplyCorrosion L c 0 s perm rngN).At x y = Col8.zero := by
  have hpaint : corrPaint L c ∅ = newRGBA L.w L.h := by
    unfold corrPaint
    refine foldl_fix _ _ _ ?_
    intro g y _
    refine foldl_fix _ _ _ ?_
    intro g2 x _
    simp
  show (corrPaint L c (corrIterate L rngN 0 (seedLoop L perm ∅ s) ∅ 0).2.1).At x y = _
  rw [show (corrIterate L rngN 0 (seedLoop L perm ∅ s) ∅ 0).2.1 = ∅ from rfl]
  rw [hpaint, At_newRGBA]

/-- C6: with a fixed mocked random source returning constant values, two
runs of each engine on the same silhouette, colors and tuning parameters
produce identical output buffers: each engine is a deterministic function
of the layer, the colors, the parameters and the random samples drawn. -/
theorem C6_deterministic_engines (L : Layer) (A B : Col16) (n : ℕ) (dir : ℤ)
    (cF : ℚ) (rng1 rng2 : ℕ → ℚ) (h1 : ∀ k, rng1 k = cF) (h2 : ∀ k, rng2 k = cF)
    (c : Col8) (it : ℕ) (s : ℤ) (perm : List ℕ)
    (cN : ℕ) (rN1 rN2 : ℕ → ℕ) (g1 : ∀ k, rN1 k = cN) (g2 : ∀ k, rN2 k = cN) :
    applyEffect L A B n dir rng1 = applyEffect L A B n dir rng2 ∧
    ApplyGlowEffect L A B rng1 = ApplyGlowEffect L A B rng2 ∧
    ApplyCorrosion L c it s perm rN1 = ApplyCorrosion L c it s perm rN2 := by
  have hf : rng1 = rng2 := funext fun k => (h1 k).trans (h2 k).symm
  have hn : rN1 = rN2 := funext fun k => (g1 k).trans (g2 k).symm
  rw [hf, hn]
  exact ⟨rfl, rfl, rfl⟩

/-- Witness for C6 at a concrete layer, colors and constant sources. -/
theorem C6_deterministic_engines_witness :
    applyEffect dotLayer blackCol.toCol16 whiteCol.toCol16 10 1 oneQ =
      applyEffect dotLayer blackCol.toCol16 whiteCol.toCol16 10 1 oneQ ∧
    ApplyGlowEffect dotLayer blackCol.toCol16 whiteCol.toCol16 oneQ =
      ApplyGlowEffect dotLayer blackCol.toCol16 whiteCol.toCol16 oneQ ∧
    ApplyCorrosion dotLayer redCol 1 1 [0] zeroN =
      ApplyCorrosion dotLayer redCol 1 1 [0] zeroN :=
  C6_deterministic_engines dotLayer blackCol.toCol16 whiteCol.toCol16 10 1 1 oneQ oneQ
    (fun _ => rfl) (fun _ => rfl) redCol 1 1 [0] 0 zeroN zeroN
    (fun _ => rfl) (fun _ => rfl)

theorem effectStep_unocc (L : Layer) (grad : List Col8) (n : ℕ) (dir : ℤ)
    (rng : ℕ → ℚ) (x y : ℤ) (st : Grid × ℕ)
    (h : ∀ a b, L.alpha a b ≠ 0 → (st.1.At a b).a = 0) :
    ∀ a b, L.alpha a b ≠ 0 → ((effectStep L grad n dir rng x y st).1.At a b).a = 0 := by
  intro a b hab
  have hset : ∀ (v : Col8), L.alpha x y = 0 → ((st.1.set x y v).At a b).a = 0 := by
    intro v hxy
    rw [Grid.At_set]
    split_ifs with hc
    · exact absurd hxy (by rw [hc.1, hc.2.1] at hab; exact hab)
    · exact h a b hab
  unfold effectStep effectAdvance
  split_ifs with h1 h2 h3 h4 h5 h6 h7 h8 h9 <;>
    first
      | exact h a b hab
      | exact hset _ (not_not.mp h1)

theorem applyEffect_occupied_unset (L : Layer) (A B : Col16) (n : ℕ) (dir : ℤ)
    (rng : ℕ → ℚ) :
    ∀ a b, L.alpha a b ≠ 0 → ((applyEffect L A B n dir rng).At a b).a = 0 := by
  unfold applyEffect
  refine foldl_invariant _
    (fun st : Grid × ℕ => ∀ a b, L.alpha a b ≠ 0 → (st.1.At a b).a = 0) _ _ ?_ ?_
  · intro a b _
    rw [At_newRGBA]
    rfl
  · intro s y _ hs
    unfold effectRow
    refine foldl_invariant _
      (fun st : Grid × ℕ => ∀ a b, L.alpha a b ≠ 0 → (st.1.At a b).a = 0) _ _ hs ?_
    intro s' x _ hs'
    exact effectStep_unocc L (buildGradient A B n) n dir rng x y s' hs'

/-- C1 (amended): for the directional engine (`applyEffect` and its
wrappers `ApplyFlameEffect` and `ApplyDripEffect`) the overlay is never
set at a coordinate whose silhouette pixel is occupied: its alpha remains
0 there.  (The glow engine's propagation fill and the corrosion engine do
not satisfy this; see the counterexample.) -/
theorem C1_directional_occupied_never_covered (L : Layer) (A B : Col16)
    (n : ℕ) (dir : ℤ) (rng : ℕ → ℚ) (_hdir : dir = 1 ∨ dir = -1) (x y : ℤ)
    (hocc : L.alpha x y ≠ 0) :
    ((applyEffect L A B n dir rng).At x y).a = 0 ∧
    ((ApplyFlameEffect L A B rng).At x y).a = 0 ∧
    ((ApplyDripEffect L A B rng).At x y).a = 0 :=
  ⟨applyEffect_occupied_unset L A B n dir rng x y hocc,
   applyEffect_occupied_unset L A B 10 1 rng x y hocc,
   applyEffect_occupied_unset L A B 15 (-1) rng x y hocc⟩

/-- Witness for the amended C1 at a concrete occupied pixel. -/
theorem C1_directional_occupied_never_covered_witness :
    ((applyEffect dotLayer blackCol.toCol16 whiteCol.toCol16 10 1 oneQ).At 0 0).a = 0 ∧
    ((ApplyFlameEffect dotLayer blackCol.toCol16 whiteCol.toCol16 oneQ).At 0 0).a = 0 ∧
    ((ApplyDripEffect dotLayer blackCol.toCol16 whiteCol.toCol16 oneQ).At 0 0).a = 0 :=
  C1_directional_occupied_never_covered dotLayer blackCol.toCol16 whiteCol.toCol16
    10 1 oneQ (Or.inl rfl) 0 0 (by decide)

set_option maxRecDepth 100000 in
/-- Counterexample to C1 as stated: on the 3×3 layer occupied only at
`(2,2)`, the glow engine's propagation fill sets the occupied pixel
`(2,2)` itself (its overlay alpha becomes nonzero), and on the 1×1 fully
occupied layer the corrosion engine paints the occupied pixel `(0,0)`
(by design corrosion paints only occupied pixels). -/
theorem C1_counterexample :
    cornerLayer.alpha 2 2 ≠ 0 ∧
    ((ApplyGlowEffect cornerLayer blackCol.toCol16 whiteCol.toCol16 oneQ).At 2 2).a ≠ 0 ∧
    dotLayer.alpha 0 0 ≠ 0 ∧
    ((ApplyCorrosion dotLayer redCol 1 1 [0] zeroN).At 0 0).a ≠ 0 := by
  decide

theorem occIdx_encode (L : Layer) (x y : ℕ) (hx : x < L.w) :
    occIdx L (y * L.w + x) ↔ L.alpha (x : ℤ) (y : ℤ) ≠ 0 := by
  unfold occIdx
  have hw : 0 < L.w := Nat.lt_of_le_of_lt (Nat.zero_le x) hx
  have h1 : (y * L.w + x) % L.w = x := by
    rw [Nat.mul_comm y L.w, Nat.mul_add_mod, Nat.mod_eq_of_lt hx]
  have h2 : (y * L.w + x) / L.w = y := by
    rw [Nat.mul_comm y L.w, Nat.mul_add_div hw, Nat.div_eq_of_lt hx, Nat.add_zero]
  rw [h1, h2]

theorem seedLoop_subset (L : Layer) (perm : List ℕ) :
    ∀ (cur : Finset ℕ) (budget : ℤ), (∀ i ∈ cur, occIdx L i) →
      ∀ i ∈ seedLoop L perm cur budget, occIdx L i := by
  induction perm with
  | nil => intro cur budget h; exact h
  | cons j rest ih =>
    intro cur budget h
    unfold seedLoop
    have hins : occIdx L j → ∀ i ∈ insert j cur, occIdx L i := by
      intro hj i hi
      rcases Finset.mem_insert.mp hi with rfl | hi
      · exact hj
      · exact h i hi
    split_ifs with h1 h2 h3
    · exact hins h1
    · exact ih _ _ (hins h1)
    · exact h
    · exact ih _ _ h

theorem corrCellStep_subset (L : Layer) (pv : Finset ℕ) (rngN : ℕ → ℕ)
    (x y : ℕ) (hx : x < L.w) (st : Finset ℕ × ℕ)
    (h : ∀ i ∈ st.1, occIdx L i) :
    ∀ i ∈ (corrCellStep L pv rngN x y st).1, occIdx L i := by
  unfold corrCellStep
  have hins : L.alpha (x : ℤ) (y : ℤ) ≠ 0 →
      ∀ i ∈ insert (y * L.w + x) st.1, occIdx L i := by
    intro ha i hi
    rcases Finset.mem_insert.mp hi with rfl | hi
    · exact (occIdx_encode L x y hx).mpr ha
    · exact h i hi
  split_ifs with h1 h2 h3
  · exact h
  · exact hins h1
  · exact hins h1
  · exact h

theorem corrSweep_subset (L : Layer) (pv : Finset ℕ) (rngN : ℕ → ℕ)
    (st : Finset ℕ × ℕ) (h : ∀ i ∈ st.1, occIdx L i) :
    ∀ i ∈ (corrSweep L pv rngN st).1, occIdx L i := by
  unfold corrSweep
  refine foldl_invariant _ (fun s : Finset ℕ × ℕ => ∀ i ∈ s.1, occIdx L i) _ _ h ?_
  intro s y _ hs
  refine foldl_invariant _ (fun s : Finset ℕ × ℕ => ∀ i ∈ s.1, occIdx L i) _ _ hs ?_
  intro s2 x hxm hs2
  exact corrCellStep_subset L pv rngN x y (List.mem_range.mp hxm) s2 hs2

theorem corrIterate_subset (L : Layer) (rngN : ℕ → ℕ) :
    ∀ (n : ℕ) (cur pv : Finset ℕ) (pos : ℕ),
      (∀ i ∈ cur, occIdx L i) → (∀ i ∈ pv, occIdx L i) →
      ∀ i ∈ (corrIterate L rngN n cur pv pos).2.1, occIdx L i := by
  intro n
  induction n with
  | zero => intro cur pv pos _ hp; exact hp
  | succ n ih =>
    intro cur pv pos hc hp
    exact ih pv _ _ hp (corrSweep_subset L pv rngN (cur, pos) hc)

theorem corrPaint_unocc (L : Layer) (c : Col8) (pvF : Finset ℕ)
    (hp : ∀ i ∈ pvF, occIdx L i) :
    ∀ x y, ((corrPaint L c pvF).At x y).a ≠ 0 → L.alpha x y ≠ 0 := by
  unfold corrPaint
  refine foldl_invariant _
    (fun g : Grid => ∀ x y, ((g.At x y).a ≠ 0 → L.alpha x y ≠ 0)) _ _ ?_ ?_
  · intro a b hab
    rw [At_newRGBA] at hab
    exact absurd rfl hab
  · intro g y _ hg
    refine foldl_invariant _
      (fun g : Grid => ∀ x y, ((g.At x y).a ≠ 0 → L.alpha x y ≠ 0)) _ _ hg ?_
    intro g2 x hxm hg2
    split_ifs with hmem
    · intro a b hab
      rw [Grid.At_set] at hab
      split_ifs at hab with hc
      · rw [hc.1, hc.2.1]
        exact (occIdx_encode L x y (List.mem_range.mp hxm)).mp (hp _ hmem)
      · exact hg2 a b hab
    · exact hg2

/-- C2: every pixel painted non-transparent by the corrosion engine lies
at a coordinate whose silhouette pixel is occupied — the corroded set is
a subset of the silhouette's occupied set, for every layer, color,
iteration count, seed count, seed permutation and random stream. -/
theorem C2_corrosion_subset_silhouette (L : Layer) (c : Col8) (it : ℕ)
    (s : ℤ) (perm : List ℕ) (rngN : ℕ → ℕ) (x y : ℤ)
    (h : ((ApplyCorrosion L c it s perm rngN).At x y).a ≠ 0) :
    L.alpha x y ≠ 0 := by
  unfold ApplyCorrosion at h
  exact corrPaint_unocc L c _
    (corrIterate_subset L rngN it _ ∅ 0
      (seedLoop_subset L perm ∅ s (by simp))
      (by simp)) x y h

/-- Witness for C2: on the 1×1 occupied layer with one seed and one
iteration the painted pixel `(0,0)` is indeed occupied. -/
theorem C2_corrosion_subset_silhouette_witness :
    dotLayer.alpha 0 0 ≠ 0 :=
  C2_corrosion_subset_silhouette dotLayer redCol 1 1 [0] zeroN 0 0 (by decide)

theorem glowPassStep_empty (L : Layer) (hL : ∀ x y, L.alpha x y = 0)
    (c : Col8) (k : ℕ) (rng : ℕ → ℚ) (x y : ℤ) (st : Grid × ℕ)
    (hst : st.1 = newRGBA L.w L.h) :
    glowPassStep L c k rng x y st = st := by
  unfold glowPassStep
  by_cases hk : k = 0
  · rw [if_pos hk, if_pos (hL x y)]
  · rw [if_neg hk, if_pos (hL x y),
      if_pos (Or.inl (by rw [hst, At_newRGBA]; rfl : (st.1.At x y).a = 0))]

/-- C9: on a fully transparent input layer the glow engine returns a
fully transparent overlay: the seed pass finds no occupied pixel and the
propagation passes find no overlay-set pixel to extend from. -/
theorem C9_glow_empty_silhouette (L : Layer) (A B : Col16) (rng : ℕ → ℚ)
    (hL : ∀ x y, L.alpha x y = 0) :
    ∀ x y, (ApplyGlowEffect L A B rng).At x y = Col8.zero := by
  intro x y
  unfold ApplyGlowEffect
  have hfold :
      ((buildGradient A B 3).enum.foldl (fun st kc => glowPass L kc.2 kc.1 rng st)
        (newRGBA L.w L.h, 0)).1 = newRGBA L.w L.h := by
    refine foldl_invariant _ (fun st : Grid × ℕ => st.1 = newRGBA L.w L.h) _ _ rfl ?_
    intro s kc _ hs
    unfold glowPass
    refine foldl_invariant _ (fun st : Grid × ℕ => st.1 = newRGBA L.w L.h) _ _ hs ?_
    intro s2 yy _ hs2
    refine foldl_invariant _ (fun st : Grid × ℕ => st.1 = newRGBA L.w L.h) _ _ hs2 ?_
    intro s3 xx _ hs3
    rw [glowPassStep_empty L hL kc.2 kc.1 rng xx yy s3 hs3]
    exact hs3
  rw [hfold, At_newRGBA]

/-- Witness for C9 on a concrete 1×1 fully transparent layer. -/
theorem C9_glow_empty_silhouette_witness :
    (ApplyGlowEffect (emptyLayer 1 1) blackCol.toCol16 whiteCol.toCol16 oneQ).At 0 0 =
      Col8.zero :=
  C9_glow_empty_silhouette (emptyLayer 1 1) blackCol.toCol16 whiteCol.toCol16 oneQ
    (fun _ _ => rfl) 0 0

theorem seedLoop_card (L : Layer) :
    ∀ (perm : List ℕ) (cur : Finset ℕ) (budget : ℤ),
      1 ≤ budget → perm.Nodup → (∀ i ∈ perm, i ∉ cur) →
      (seedLoop L perm cur budget).card =
        cur.card + min budget.toNat (perm.countP fun i => decide (occIdx L i)) := by
  intro perm
  induction perm with
  | nil =>
    intro cur b hb _ _
    unfold seedLoop
    simp
  | cons j rest ih =>
    intro cur b hb hnd hdisj
    have hndr : rest.Nodup := (List.nodup_cons.mp hnd).2
    have hjr : j ∉ rest := (List.nodup_cons.mp hnd).1
    have hjcur : j ∉ cur := hdisj j (by simp)
    unfold seedLoop
    by_cases hj : occIdx L j
    · rw [if_pos hj]
      have hcard : (insert j cur).card = cur.card + 1 :=
        Finset.card_insert_of_not_mem hjcur
      have hcount : ((j :: rest).countP fun i => decide (occIdx L i)) =
          (rest.countP fun i => decide (occIdx L i)) + 1 := by
        simp [List.countP_cons, hj]
      by_cases hb1 : b - 1 = 0
      · rw [if_pos hb1, hcard, hcount]
        omega
      · rw [if_neg hb1]
        have hdisj' : ∀ i ∈ rest, i ∉ insert j cur := by
          intro i hi
          rw [Finset.mem_insert]
          rintro (rfl | hic)
          · exact hjr hi
          · exact hdisj i (by simp [hi]) hic
        rw [ih (insert j cur) (b - 1) (by omega) hndr hdisj', hcard, hcount]
        omega
    · rw [if_neg hj, if_neg (by omega : ¬b = 0)]
      have hdisj' : ∀ i ∈ rest, i ∉ cur := fun i hi => hdisj i (by simp [hi])
      rw [ih cur b hb hndr hdisj']
      have hcount : ((j :: rest).countP fun i => decide (occIdx L i)) =
          rest.countP fun i => decide (occIdx L i) := by
        simp [List.countP_cons, hj]
      rw [hcount]

set_option maxRecDepth 10000 in
/-- Counterexample to C4 as stated: with seed count 0 on the 1×1 occupied
layer, the seed loop decrements the budget before checking it against 0,
so the (occupied) first visited cell is marked and the budget falls to
-1, never to be 0 again: one seed is marked although
`min 0 (occupied count) = 0`. -/
theorem C4_counterexample :
    (seedLoop dotLayer [0] ∅ 0).card = 1 ∧
      min ((0 : ℤ).toNat) (occCount dotLayer) = 0 := by
  decide

/-- C4 (amended): for every requested seed count `s ≥ 1` and every
permutation of all cell indices, the seed-selection phase marks only
occupied cells, always terminates (it is a structurally recursive fold),
and marks exactly `min s (number of occupied cells)` seeds.  (For `s = 0`
the code decrements before testing the budget, so an occupied first cell
drives the budget negative and every occupied cell becomes a seed; see
the counterexample.) -/
theorem C4_seed_selection (L : Layer) (perm : List ℕ) (s : ℤ) (hs : 1 ≤ s)
    (hperm : perm.Perm (List.range (L.w * L.h))) :
    (seedLoop L perm ∅ s).card = min s.toNat (occCount L) ∧
    ∀ i ∈ seedLoop L perm ∅ s, occIdx L i := by
  constructor
  · have hnd : perm.Nodup := hperm.nodup_iff.mpr (List.nodup_range _)
    have h1 := seedLoop_card L perm ∅ s hs hnd (by simp)
    have h2 : (perm.countP fun i => decide (occIdx L i)) = occCount L :=
      hperm.countP_eq _
    rw [h1, h2, Finset.card_empty, Nat.zero_add]
  · exact seedLoop_subset L perm ∅ s (by simp)

/-- Witness for the amended C4 on the 1×1 occupied layer with one seed. -/
theorem C4_seed_selection_witness :
    ((seedLoop dotLayer [0] ∅ 1).card = min ((1 : ℤ).toNat) (occCount dotLayer) ∧
      ∀ i ∈ seedLoop dotLayer [0] ∅ 1, occIdx dotLayer i) :=
  C4_seed_selection dotLayer [0] 1 (by norm_num) (by decide)

set_option maxRecDepth 10000 in
/-- Counterexample to C5 as stated: on the fully occupied 1×2 vertical
line, every pixel is skipped as occupied, so the overlay is entirely
transparent — no pixel at all is set, and in particular the location one
step above the silhouette's top pixel, `(0, -1)`, lies outside the
returned buffer's bounds and is transparent, not `gradient[0]`. -/
theorem C5_counterexample :
    ((applyEffect lineFullLayer blackCol.toCol16 whiteCol.toCol16 10 1 oneQ).At 0 (-1)).a = 0 ∧
    ((applyEffect lineFullLayer blackCol.toCol16 whiteCol.toCol16 10 1 oneQ).At 0 0).a = 0 ∧
    ((applyEffect lineFullLayer blackCol.toCol16 whiteCol.toCol16 10 1 oneQ).At 0 1).a = 0 := by
  decide

theorem effectRow_occupied_row (N : ℕ) (grad : List Col8) (n : ℕ)
    (rng : ℕ → ℚ) (y : ℤ) (h1 : 1 ≤ y) (h2 : y ≤ (N : ℤ)) (st : Grid × ℕ) :
    effectRow (lineLayer N) grad n 1 rng y st = st := by
  unfold effectRow
  rw [show ((List.range (lineLayer N).w).map Int.ofNat) = [(0 : ℤ)] from rfl,
    List.foldl_cons, List.foldl_nil]
  unfold effectStep
  rw [if_pos (by simp [lineLayer, h1, h2] : (lineLayer N).alpha 0 y ≠ 0)]

/-- C5 (amended): for a 1-pixel-wide layer of height `N+1` whose bottom
`N` pixels (rows `1..N`) are an occupied vertical line and whose top row
is transparent, the directional engine with direction up and a mocked
random source whose samples are always 1.0 produces an overlay with
exactly one set pixel: `gradient[0]` at `(0, 0)`, one step above the
silhouette's top pixel.  (On a *fully* occupied 1×N layer every pixel is
skipped as occupied and the overlay is empty, since the location one
step above the top lies outside the bounds; see the counterexample.) -/
theorem C5_line_one_above_top (N : ℕ) (hN : 1 ≤ N) (A B : Col16) (n : ℕ)
    (rng : ℕ → ℚ) (_hrng : ∀ k, rng k = 1) (x y : ℤ) :
    (applyEffect (lineLayer N) A B n 1 rng).At x y =
      if x = 0 ∧ y = 0 then (buildGradient A B n).getD 0 Col8.zero
      else Col8.zero := by
  unfold applyEffect
  have hrows : scanRows (lineLayer N).h 1 =
      (((List.range N).map Nat.succ).reverse).map Int.ofNat ++ [(0 : ℤ)] := by
    unfold scanRows
    rw [if_neg (by decide : ¬(1 : ℤ) = -1)]
    show ((List.range (N + 1)).reverse).map Int.ofNat = _
    rw [List.range_succ_eq_map]
    simp
  rw [hrows, List.foldl_append]
  have hstart :
      List.foldl
        (fun st y => effectRow (lineLayer N) (buildGradient A B n) n 1 rng y st)
        (newRGBA (lineLayer N).w (lineLayer N).h, 0)
        ((((List.range N).map Nat.succ).reverse).map Int.ofNat) =
      (newRGBA (lineLayer N).w (lineLayer N).h, 0) := by
    refine foldl_fix _ _ _ ?_
    intro s yy hyy
    simp only [List.mem_map, List.mem_reverse, List.mem_range] at hyy
    obtain ⟨m, hm, rfl⟩ := hyy
    refine effectRow_occupied_row N _ n rng _ ?_ ?_ s <;>
      simp only [Int.ofNat_eq_natCast] <;> omega
  rw [hstart, List.foldl_cons, List.foldl_nil]
  have hlast :
      effectRow (lineLayer N) (buildGradient A B n) n 1 rng 0
        (newRGBA (lineLayer N).w (lineLayer N).h, 0) =
      ((newRGBA (lineLayer N).w (lineLayer N).h).set 0 0
        ((buildGradient A B n).getD 0 Col8.zero), 0) := by
    unfold effectRow
    rw [show ((List.range (lineLayer N).w).map Int.ofNat) = [(0 : ℤ)] from rfl,
      List.foldl_cons, List.foldl_nil]
    unfold effectStep
    rw [if_neg (by simp [lineLayer] : ¬(lineLayer N).alpha 0 0 ≠ 0),
      if_pos (by simp [lineLayer]; omega : (lineLayer N).alpha 0 (0 + 1) ≠ 0)]
  rw [hlast]
  show ((newRGBA (lineLayer N).w (lineLayer N).h).set 0 0
    ((buildGradient A B n).getD 0 Col8.zero)).At x y = _
  rw [Grid.At_set]
  have hinb : inb (newRGBA (lineLayer N).w (lineLayer N).h).w
      (newRGBA (lineLayer N).w (lineLayer N).h).h 0 0 := by
    refine ⟨le_refl 0, ?_, le_refl 0, ?_⟩
    · show (0 : ℤ) < ((1 : ℕ) : ℤ)
      decide
    · show (0 : ℤ) < ((N + 1 : ℕ) : ℤ)
      omega
  by_cases hxy : x = 0 ∧ y = 0
  · rw [if_pos ⟨hxy.1, hxy.2, hinb⟩, if_pos hxy]
  · rw [if_neg (by tauto), if_neg hxy, At_newRGBA]

/-- Witness for the amended C5 at `N = 1`: the single overlay pixel is
`gradient[0]` at `(0, 0)`. -/
theorem C5_line_one_above_top_witness :
    (applyEffect (lineLayer 1) blackCol.toCol16 whiteCol.toCol16 10 1 oneQ).At 0 0 =
      (buildGradient blackCol.toCol16 whiteCol.toCol16 10).getD 0 Col8.zero := by
  have h := C5_line_one_above_top 1 (le_refl 1) blackCol.toCol16 whiteCol.toCol16 10
    oneQ (fun _ => rfl) 0 0
  simpa using h

theorem fdiv_bounds (a b i m : ℤ) (hm : 0 < m) (hi0 : 0 ≤ i) (him : i ≤ m) :
    min a b ≤ (a * m + i * (b - a)).fdiv m ∧ (a * m + i * (b - a)).fdiv m ≤ max a b := by
  rw [Int.fdiv_eq_ediv _ hm.le]
  constructor
  · rcases le_total a b with hab | hab
    · rw [min_eq_left hab]
      calc a = a * m / m := (Int.mul_ediv_cancel a hm.ne').symm
        _ ≤ (a * m + i * (b - a)) / m :=
          Int.ediv_le_ediv hm (by nlinarith [mul_nonneg hi0 (sub_nonneg.mpr hab)])
    · rw [min_eq_right hab]
      calc b = b * m / m := (Int.mul_ediv_cancel b hm.ne').symm
        _ ≤ (a * m + i * (b - a)) / m :=
          Int.ediv_le_ediv hm
            (by nlinarith [mul_nonneg (sub_nonneg.mpr hab) (sub_nonneg.mpr him)])
  · rcases le_total a b with hab | hab
    · rw [max_eq_right hab]
      calc (a * m + i * (b - a)) / m ≤ b * m / m :=
          Int.ediv_le_ediv hm
            (by nlinarith [mul_nonneg (sub_nonneg.mpr hab) (sub_nonneg.mpr him)])
        _ = b := Int.mul_ediv_cancel b hm.ne'
    · rw [max_eq_left hab]
      calc (a * m + i * (b - a)) / m ≤ a * m / m :=
          Int.ediv_le_ediv hm (by nlinarith [mul_nonneg hi0 (sub_nonneg.mpr hab)])
        _ = a := Int.mul_ediv_cancel a hm.ne'

theorem interpCh_val (a b : ℕ) (i m : ℤ) (ha : (a : ℤ) ≤ 65535)
    (hb : (b : ℤ) ≤ 65535) (hm : 0 < m) (hi0 : 0 ≤ i) (him : i ≤ m) :
    interpCh a b i m = (((a : ℤ) * m + i * ((b : ℤ) - a)).fdiv m).toNat ∧
      (((a : ℤ) * m + i * ((b : ℤ) - a)).fdiv m).toNat ≤ 65535 := by
  obtain ⟨h1, h2⟩ := fdiv_bounds (a : ℤ) (b : ℤ) i m hm hi0 him
  have hub : ((a : ℤ) * m + i * ((b : ℤ) - a)).fdiv m ≤ 65535 :=
    le_trans h2 (max_le ha hb)
  have htn : (((a : ℤ) * m + i * ((b : ℤ) - a)).fdiv m).toNat ≤ 65535 := by
    have h3 := Int.toNat_le_toNat hub
    simpa using h3
  refine ⟨?_, htn⟩
  unfold interpCh
  rw [Nat.mod_eq_of_lt (by omega)]

theorem interpCh_mono (a b : ℕ) (i j m : ℤ) (ha : (a : ℤ) ≤ 65535)
    (hb : (b : ℤ) ≤ 65535) (hm : 0 < m) (hi0 : 0 ≤ i) (hij : i ≤ j) (hjm : j ≤ m) :
    (a ≤ b → interpCh a b i m ≤ interpCh a b j m) ∧
    (b ≤ a → interpCh a b j m ≤ interpCh a b i m) := by
  have hj0 : 0 ≤ j := le_trans hi0 hij
  have him : i ≤ m := le_trans hij hjm
  obtain ⟨hvi, _⟩ := interpCh_val a b i m ha hb hm hi0 him
  obtain ⟨hvj, _⟩ := interpCh_val a b j m ha hb hm hj0 hjm
  rw [hvi, hvj]
  rw [Int.fdiv_eq_ediv _ hm.le, Int.fdiv_eq_ediv _ hm.le]
  constructor <;> intro hab <;> apply Int.toNat_le_toNat <;> apply Int.ediv_le_ediv hm
  · have hba : (0 : ℤ) ≤ (b : ℤ) - a := by
      have : (a : ℤ) ≤ b := by exact_mod_cast hab
      omega
    nlinarith [mul_nonneg (sub_nonneg.mpr hij) hba]
  · have hba : (0 : ℤ) ≤ (a : ℤ) - b := by
      have : (b : ℤ) ≤ a := by exact_mod_cast hab
      omega
    nlinarith [mul_nonneg (sub_nonneg.mpr hij) hba]

theorem interpCh_zero (a b : ℕ) (ha : (a : ℤ) ≤ 65535) (m : ℤ) (hm : 0 < m) :
    interpCh a b 0 m = a := by
  unfold interpCh
  rw [zero_mul, add_zero, Int.mul_fdiv_cancel _ hm.ne', Int.toNat_natCast,
    Nat.mod_eq_of_lt (by omega)]

theorem interpCh_last (a b : ℕ) (hb : (b : ℤ) ≤ 65535) (m : ℤ) (hm : 0 < m) :
    interpCh a b m m = b := by
  unfold interpCh
  rw [show (a : ℤ) * m + m * ((b : ℤ) - a) = (b : ℤ) * m from by ring,
    Int.mul_fdiv_cancel _ hm.ne', Int.toNat_natCast, Nat.mod_eq_of_lt (by omega)]

theorem interpCh_eq_q (a b : ℕ) (i m : ℤ) (hm : 0 < m) :
    interpCh a b i m = interpChQ a b (Rat.divInt i m) := by
  unfold interpCh interpChQ
  have hmt : ((m.toNat : ℕ) : ℤ) = m := Int.toNat_of_nonneg hm.le
  have key : (a : ℚ) + (Rat.divInt i m) * ((b : ℚ) - (a : ℚ)) =
      ((((a : ℤ) * m + i * ((b : ℤ) - a)) : ℤ) : ℚ) / ((m.toNat : ℕ) : ℚ) := by
    rw [Rat.divInt_eq_div]
    have hcast : ((m.toNat : ℕ) : ℚ) = ((m : ℤ) : ℚ) := by exact_mod_cast hmt
    have hne : ((m : ℤ) : ℚ) ≠ 0 := by
      exact_mod_cast hm.ne'
    rw [hcast]
    field_simp
  rw [key, Rat.floor_intCast_div_natCast, Int.fdiv_eq_ediv _ hm.le, hmt]

theorem ch257_div (v : ℕ) (hv : v < 256) : 257 * v / 256 = v := by
  rw [show 257 * v = 256 * v + v from by ring, Nat.mul_add_div (by norm_num),
    Nat.div_eq_of_lt hv, Nat.add_zero]

theorem buildGradient_getD (A B : Col16) (N i : ℕ) (hi : i < N) :
    (buildGradient A B N).getD i Col8.zero =
      interpolateColor A B (i : ℤ) ((N : ℤ) - 1) := by
  unfold buildGradient
  rw [List.getD_eq_getElem?_getD, List.getElem?_map, List.getElem?_range hi]
  rfl

theorem buildGradient_length (A B : Col16) (N : ℕ) :
    (buildGradient A B N).length = N := by
  unfold buildGradient
  rw [List.length_map, List.length_range]

/-- C3: for 8-bit boundary colors A and B and any N ≥ 2, the gradient
built by the engines has exactly N entries, entry `i` is the truncating
per-channel linear interpolation at fraction `i/(N-1)`, entry 0 equals A
and entry N-1 equals B exactly, and every channel is monotonic between
A's and B's value of that channel. -/
theorem C3_gradient_properties (A B : Col8) (N : ℕ) (hN : 2 ≤ N)
    (hA : A.Valid) (hB : B.Valid) :
    (buildGradient A.toCol16 B.toCol16 N).length = N ∧
    (∀ i, i < N → (buildGradient A.toCol16 B.toCol16 N).getD i Col8.zero =
      interpolateColor A.toCol16 B.toCol16 (i : ℤ) ((N : ℤ) - 1)) ∧
    (buildGradient A.toCol16 B.toCol16 N).getD 0 Col8.zero = A ∧
    (buildGradient A.toCol16 B.toCol16 N).getD (N - 1) Col8.zero = B ∧
    (∀ i j : ℕ, i ≤ j → j < N →
      ((A.r ≤ B.r →
          ((buildGradient A.toCol16 B.toCol16 N).getD i Col8.zero).r ≤
            ((buildGradient A.toCol16 B.toCol16 N).getD j Col8.zero).r) ∧
        (B.r ≤ A.r →
          ((buildGradient A.toCol16 B.toCol16 N).getD j Col8.zero).r ≤
            ((buildGradient A.toCol16 B.toCol16 N).getD i Col8.zero).r)) ∧
      ((A.g ≤ B.g →
          ((buildGradient A.toCol16 B.toCol16 N).getD i Col8.zero).g ≤
            ((buildGradient A.toCol16 B.toCol16 N).getD j Col8.zero).g) ∧
        (B.g ≤ A.g →
          ((buildGradient A.toCol16 B.toCol16 N).getD j Col8.zero).g ≤
            ((buildGradient A.toCol16 B.toCol16 N).getD i Col8.zero).g)) ∧
      ((A.b ≤ B.b →
          ((buildGradient A.toCol16 B.toCol16 N).getD i Col8.zero).b ≤
            ((buildGradient A.toCol16 B.toCol16 N).getD j Col8.zero).b) ∧
        (B.b ≤ A.b →
          ((buildGradient A.toCol16 B.toCol16 N).getD j Col8.zero).b ≤
            ((buildGradient A.toCol16 B.toCol16 N).getD i Col8.zero).b)) ∧
      ((A.a ≤ B.a →
          ((buildGradient A.toCol16 B.toCol16 N).getD i Col8.zero).a ≤
            ((buildGradient A.toCol16 B.toCol16 N).getD j Col8.zero).a) ∧
        (B.a ≤ A.a →
          ((buildGradient A.toCol16 B.toCol16 N).getD j Col8.zero).a ≤
            ((buildGradient A.toCol16 B.toCol16 N).getD i Col8.zero).a))) := by
  have hm : (0 : ℤ) < (N : ℤ) - 1 := by omega
  have hle : ∀ v : ℕ, v < 256 → ((257 * v : ℕ) : ℤ) ≤ 65535 := by
    intro v hv
    push_cast
    omega
  refine ⟨buildGradient_length _ _ N, buildGradient_getD A.toCol16 B.toCol16 N, ?_, ?_, ?_⟩
  · rw [buildGradient_getD A.toCol16 B.toCol16 N 0 (by omega)]
    obtain ⟨r, g, b, a⟩ := A
    obtain ⟨hr, hg, hbb, ha⟩ := hA
    simp only [interpolateColor, Col8.toCol16, Nat.cast_zero]
    congr 1 <;>
      rw [interpCh_zero _ _ (hle _ (by assumption)) _ hm, ch257_div _ (by assumption)]
  · rw [buildGradient_getD A.toCol16 B.toCol16 N (N - 1) (by omega)]
    obtain ⟨r, g, b, a⟩ := B
    obtain ⟨hr, hg, hbb, ha⟩ := hB
    simp only [interpolateColor, Col8.toCol16]
    rw [show ((N - 1 : ℕ) : ℤ) = (N : ℤ) - 1 from by
      push_cast [Nat.cast_sub (by omega : 1 ≤ N)]; ring]
    congr 1 <;>
      rw [interpCh_last _ _ (hle _ (by assumption)) _ hm, ch257_div _ (by assumption)]
  · intro i j hij hj
    have hi : i < N := lt_of_le_of_lt hij hj
    rw [buildGradient_getD A.toCol16 B.toCol16 N i hi,
      buildGradient_getD A.toCol16 B.toCol16 N j hj]
    have hmono : ∀ va vb : ℕ, va < 256 → vb < 256 →
        (257 * va ≤ 257 * vb →
          interpCh (257 * va) (257 * vb) (i : ℤ) ((N : ℤ) - 1) ≤
            interpCh (257 * va) (257 * vb) (j : ℤ) ((N : ℤ) - 1)) ∧
        (257 * vb ≤ 257 * va →
          interpCh (257 * va) (257 * vb) (j : ℤ) ((N : ℤ) - 1) ≤
            interpCh (257 * va) (257 * vb) (i : ℤ) ((N : ℤ) - 1)) := by
      intro va vb hva hvb
      exact interpCh_mono (257 * va) (257 * vb) (i : ℤ) (j : ℤ) ((N : ℤ) - 1)
        (hle va hva) (hle vb hvb) hm (by omega) (by exact_mod_cast hij) (by omega)
    obtain ⟨hAr, hAg, hAb, hAa⟩ := hA
    obtain ⟨hBr, hBg, hBb, hBa⟩ := hB
    refine ⟨⟨?_, ?_⟩, ⟨?_, ?_⟩, ⟨?_, ?_⟩, ⟨?_, ?_⟩⟩ <;> intro hab <;>
      apply Nat.div_le_div_right
    · exact (hmono A.r B.r hAr hBr).1 (by omega)
    · exact (hmono A.r B.r hAr hBr).2 (by omega)
    · exact (hmono A.g B.g hAg hBg).1 (by omega)
    · exact (hmono A.g B.g hAg hBg).2 (by omega)
    · exact (hmono A.b B.b hAb hBb).1 (by omega)
    · exact (hmono A.b B.b hAb hBb).2 (by omega)
    · exact (hmono A.a B.a hAa hBa).1 (by omega)
    · exact (hmono A.a B.a hAa hBa).2 (by omega)

/-- Witness for C3: black-to-white with N = 3 gives 3 entries with the
exact endpoints, and the middle entry is the 127-gray the spec's scenario
expects. -/
theorem C3_gradient_properties_witness :
    ((buildGradient blackCol.toCol16 whiteCol.toCol16 3).length = 3 ∧
      (buildGradient blackCol.toCol16 whiteCol.toCol16 3).getD 0 Col8.zero = blackCol ∧
      (buildGradient blackCol.toCol16 whiteCol.toCol16 3).getD 2 Col8.zero = whiteCol) ∧
    (buildGradient blackCol.toCol16 whiteCol.toCol16 3).getD 1 Col8.zero =
      ⟨127, 127, 127, 255⟩ := by
  have h := C3_gradient_properties blackCol whiteCol 3 (by norm_num)
    (by constructor <;> norm_num [blackCol]) (by constructor <;> norm_num [whiteCol])
  exact ⟨⟨h.1, h.2.2.1, h.2.2.2.1⟩, by decide⟩

theorem fillFold_At (c : Col8) (x y : ℤ) (w h : ℕ) :
    ∀ (l : List (ℤ × ℤ)) (g : Grid), g.w = w → g.h = h →
      (l.map (fun o : ℤ × ℤ => (x + o.1, y + o.2))).Nodup →
      ∀ x' y' : ℤ,
      (l.foldl
        (fun g2 o =>
          if inb w h (x + o.1) (y + o.2) then
            if (g2.At (x + o.1) (y + o.2)).a = 0 then g2.set (x + o.1) (y + o.2) c
            else g2
          else g2) g).At x' y' =
        if (∃ o ∈ l, x' = x + o.1 ∧ y' = y + o.2) ∧ inb w h x' y' ∧
            (g.At x' y').a = 0
        then c else g.At x' y' := by
  intro l
  induction l with
  | nil =>
    intro g _ _ _ x' y'
    simp
  | cons o rest ih =>
    intro g hw hh hnd x' y'
    have hndr : (rest.map (fun o : ℤ × ℤ => (x + o.1, y + o.2))).Nodup :=
      (List.nodup_cons.mp hnd).2
    have hhead : (x + o.1, y + o.2) ∉
        rest.map (fun o : ℤ × ℤ => (x + o.1, y + o.2)) :=
      (List.nodup_cons.mp hnd).1
    have hexr : ∀ {a b : ℤ}, a = x + o.1 → b = y + o.2 →
        ¬∃ o' ∈ rest, a = x + o'.1 ∧ b = y + o'.2 := by
      rintro a b rfl rfl ⟨o', ho', h1, h2⟩
      exact hhead (List.mem_map.mpr ⟨o', ho', by rw [← h1, ← h2]⟩)
    rw [List.foldl_cons]
    by_cases hb : inb w h (x + o.1) (y + o.2)
    · rw [if_pos hb]
      by_cases hset : (g.At (x + o.1) (y + o.2)).a = 0
      · rw [if_pos hset]
        rw [ih (g.set (x + o.1) (y + o.2) c) (by rw [Grid.w_set, hw])
          (by rw [Grid.h_set, hh]) hndr x' y']
        by_cases he : x' = x + o.1 ∧ y' = y + o.2
        · obtain ⟨he1, he2⟩ := he
          rw [if_neg (fun hcon => hexr he1 he2 hcon.1),
            if_pos ⟨⟨o, by simp, he1, he2⟩, by rw [he1, he2]; exact ⟨hb, hset⟩⟩]
          rw [Grid.At_set, if_pos ⟨he1, he2, by rw [hw, hh]; exact hb⟩]
        · have hAt : (g.set (x + o.1) (y + o.2) c).At x' y' = g.At x' y' := by
            rw [Grid.At_set, if_neg (by tauto)]
          rw [hAt]
          by_cases hc : (∃ o' ∈ rest, x' = x + o'.1 ∧ y' = y + o'.2) ∧
              inb w h x' y' ∧ (g.At x' y').a = 0
          · rw [if_pos hc, if_pos ⟨⟨hc.1.choose, by simp [hc.1.choose_spec.1],
              hc.1.choose_spec.2⟩, hc.2⟩]
          · rw [if_neg hc, if_neg ?_]
            rintro ⟨⟨o', ho', h1, h2⟩, hrest⟩
            rcases List.mem_cons.mp ho' with rfl | ho'
            · exact he ⟨h1, h2⟩
            · exact hc ⟨⟨o', ho', h1, h2⟩, hrest⟩
      · rw [if_neg hset]
        rw [ih g hw hh hndr x' y']
        by_cases he : x' = x + o.1 ∧ y' = y + o.2
        · obtain ⟨he1, he2⟩ := he
          rw [if_neg (fun hcon => hexr he1 he2 hcon.1),
            if_neg (fun hcon => hset (by rw [← he1, ← he2]; exact hcon.2.2))]
        · apply if_congr _ rfl rfl
          constructor
          · rintro ⟨⟨o', ho', h1, h2⟩, hrest⟩
            exact ⟨⟨o', by simp [ho'], h1, h2⟩, hrest⟩
          · rintro ⟨⟨o', ho', h1, h2⟩, hrest⟩
            rcases List.mem_cons.mp ho' with rfl | ho'
            · exact absurd ⟨h1, h2⟩ he
            · exact ⟨⟨o', ho', h1, h2⟩, hrest⟩
    · rw [if_neg hb]
      rw [ih g hw hh hndr x' y']
      by_cases he : x' = x + o.1 ∧ y' = y + o.2
      · obtain ⟨he1, he2⟩ := he
        rw [if_neg (fun hcon => hexr he1 he2 hcon.1),
          if_neg (fun hcon => hb (by rw [← he1, ← he2]; exact hcon.2.1))]
      · apply if_congr _ rfl rfl
        constructor
        · rintro ⟨⟨o', ho', h1, h2⟩, hrest⟩
          exact ⟨⟨o', by simp [ho'], h1, h2⟩, hrest⟩
        · rintro ⟨⟨o', ho', h1, h2⟩, hrest⟩
          rcases List.mem_cons.mp ho' with rfl | ho'
          · exact absurd ⟨h1, h2⟩ he
          · exact ⟨⟨o', ho', h1, h2⟩, hrest⟩

theorem offsets_map_nodup (x y : ℤ) :
    (offsets.map (fun o : ℤ × ℤ => (x + o.1, y + o.2))).Nodup := by
  refine List.Nodup.map ?_ (by decide)
  intro o1 o2 hpair
  have h1 : x + o1.1 = x + o2.1 := congrArg Prod.fst hpair
  have h2 : y + o1.2 = y + o2.2 := congrArg Prod.snd hpair
  exact Prod.ext_iff.mpr ⟨by omega, by omega⟩

theorem mem_offsets_iff (x₀ y₀ a b : ℤ) :
    (∃ o ∈ offsets, a = x₀ + o.1 ∧ b = y₀ + o.2) ↔
      x₀ - 1 ≤ a ∧ a ≤ x₀ + 1 ∧ y₀ - 1 ≤ b ∧ b ≤ y₀ + 1 := by
  constructor
  · rintro ⟨o, ho, rfl, rfl⟩
    fin_cases ho <;> omega
  · rintro ⟨h1, h2, h3, h4⟩
    refine ⟨(a - x₀, b - y₀), ?_, by ring, by ring⟩
    simp only [offsets, List.mem_cons, List.not_mem_nil, or_false, Prod.ext_iff]
    omega

theorem glowFill_At (ov : Grid) (c : Col8) (x y x' y' : ℤ) :
    (glowFill ov c x y).At x' y' =
      if (x - 1 ≤ x' ∧ x' ≤ x + 1 ∧ y - 1 ≤ y' ∧ y' ≤ y + 1) ∧
          inb ov.w ov.h x' y' ∧ (ov.At x' y').a = 0 then c
      else ov.At x' y' := by
  unfold glowFill
  rw [fillFold_At c x y ov.w ov.h offsets ov rfl rfl (offsets_map_nodup x y) x' y']
  apply if_congr _ rfl rfl
  exact and_congr_left' (mem_offsets_iff x y x' y')

/-- C8: in a glow propagation pass (gradient index k > 0), a pixel that
is unoccupied on the silhouette triggers neighbor-filling exactly when it
is set on the overlay with a color strictly different from gradient[k],
its count of in-bounds 3×3 neighbors set on the overlay with a color
different from gradient[k] is at least 3, and the uniform thinning skip
(sample < 0.1) does not fire; when it triggers, every in-bounds 3×3
neighbor still unset on the overlay is set to gradient[k], and nothing
else changes.  One random sample is drawn exactly when the pixel is
overlay-set with a different color and the neighbor count reaches 3. -/
theorem C8_glow_propagation_step (L : Layer) (c : Col8) (k : ℕ) (rng : ℕ → ℚ)
    (x y : ℤ) (ov : Grid) (pos : ℕ) (hk : k ≠ 0) (hunocc : L.alpha x y = 0) :
    (∀ x' y' : ℤ,
      ((glowPassStep L c k rng x y (ov, pos)).1).At x' y' =
        if ((ov.At x y).a ≠ 0 ∧ ov.At x y ≠ c ∧
            3 ≤ glowNeighborCount ov c x y ∧ ¬rng pos < mkRat 1 10) ∧
          (x - 1 ≤ x' ∧ x' ≤ x + 1 ∧ y - 1 ≤ y' ∧ y' ≤ y + 1) ∧
          inb ov.w ov.h x' y' ∧ (ov.At x' y').a = 0
        then c else ov.At x' y') ∧
    (glowPassStep L c k rng x y (ov, pos)).2 =
      (if (ov.At x y).a ≠ 0 ∧ ov.At x y ≠ c ∧ 3 ≤ glowNeighborCount ov c x y
        then pos + 1 else pos) := by
  unfold glowPassStep
  rw [if_neg hk, if_pos hunocc]
  by_cases h1 : (ov.At x y).a = 0 ∨ ov.At x y = c
  · rw [if_pos h1]
    exact ⟨fun x' y' => by rw [if_neg (by tauto)], by rw [if_neg (by tauto)]⟩
  · rw [if_neg h1]
    push_neg at h1
    by_cases h2 : glowNeighborCount ov c x y < 3
    · rw [if_pos h2]
      refine ⟨fun x' y' => ?_, ?_⟩
      · rw [if_neg (fun hcon => absurd hcon.1.2.2.1 (by omega))]
      · rw [if_neg (fun hcon => absurd hcon.2.2 (by omega))]
    · rw [if_neg h2]
      by_cases h3 : rng pos < mkRat 1 10
      · rw [if_pos h3]
        refine ⟨fun x' y' => ?_, ?_⟩
        · rw [if_neg (fun hcon => hcon.1.2.2.2 h3)]
        · rw [if_pos ⟨h1.1, h1.2, by omega⟩]
      · rw [if_neg h3]
        refine ⟨fun x' y' => ?_, ?_⟩
        · show (glowFill ov c x y).At x' y' = _
          rw [glowFill_At ov c x y x' y']
          apply if_congr _ rfl rfl
          constructor
          · intro hcon
            exact ⟨⟨h1.1, h1.2, by omega, h3⟩, hcon⟩
          · exact fun hcon => hcon.2
        · rw [if_pos ⟨h1.1, h1.2, by omega⟩]

/-- Witness for C8: on a 3×3 grid with three overlay pixels around the
center and a never-thinning source, the propagation step at the center
fills the unset corner neighbor `(2,2)` with the pass color. -/
theorem C8_glow_propagation_step_witness :
    ((glowPassStep (emptyLayer 3 3) whiteCol 1 oneQ 1 1
        ((((newRGBA 3 3).set 1 1 blackCol).set 0 1 blackCol).set 1 0 blackCol,
          0)).1).At 2 2 = whiteCol := by
  have h := C8_glow_propagation_step (emptyLayer 3 3) whiteCol 1 oneQ 1 1
    ((((newRGBA 3 3).set 1 1 blackCol).set 0 1 blackCol).set 1 0 blackCol) 0
    (by decide) rfl
  rw [h.1 2 2, if_pos (by decide)]

end GoSpritesheet
